import Mathlib

/-!
Verification of the financial projection engine of `src/script.js`
(real-estate sales-simulation calculator).

The engine is embedded shallowly over `ℚ`:

* `Config` mirrors `state.config`; percentage and rate fields are rationals,
  `entradaMonths`, `preLaunchMonths`, `launchMonths` are naturals (they are
  used as loop bounds and band boundaries), and `payInterMonth` is an integer
  (it is used directly as an array index, and out-of-range values matter).
* A JavaScript number that may be non-finite (`NaN` from `undefined + x` or a
  division by zero) is `Option ℚ` with `none` for the non-finite case.
* A JavaScript array built by index assignment is `JSArr`: an entry map over
  `ℤ` together with a `length` that grows exactly as JS array length does
  (writing at index `i ≥ length` makes the length `i + 1`; writing at a
  negative index leaves the length alone).
* The solver, payback, ROI and aggregation work on dense numeric arrays in the
  source, so they are embedded over `List ℚ`.
-/

namespace ApsInvest

/-- The configuration record `state.config` of `script.js`. -/
structure Config where
  incc : ℚ
  ipca : ℚ
  entradaPct : ℚ
  entradaMonths : ℕ
  payAtoPct : ℚ
  payInterPct : ℚ
  payInterMonth : ℤ
  payChavesPct : ℚ
  preLaunchMonths : ℕ
  launchMonths : ℕ
  discountPre : ℚ
  discountLaunch : ℚ
  deriving DecidableEq

/-- The initial values of `state.config` in `script.js`. -/
def defaultConfig : Config where
  incc := 45 / 10000
  ipca := 5 / 1000
  entradaPct := 30
  entradaMonths := 6
  payAtoPct := 0
  payInterPct := 0
  payInterMonth := 6
  payChavesPct := 0
  preLaunchMonths := 2
  launchMonths := 3
  discountPre := 10
  discountLaunch := 5

/-- `applyDiscount(unitValue, catIdx)` from `script.js`. -/
def applyDiscount (cfg : Config) (unitValue : ℚ) (catIdx : ℕ) : ℚ :=
  if catIdx < cfg.preLaunchMonths then
    unitValue * (1 - cfg.discountPre / 100)
  else if catIdx < cfg.preLaunchMonths + cfg.launchMonths then
    unitValue * (1 - cfg.discountLaunch / 100)
  else
    unitValue

/-- `updateValueByINCC(initialValue, monthIdx)` from `script.js`:
`initialValue * Math.pow(1 + incc, monthIdx)`. -/
def updateValueByINCC (cfg : Config) (initialValue : ℚ) (monthIdx : ℤ) : ℚ :=
  initialValue * (1 + cfg.incc) ^ monthIdx

/-- `updateValueByIPCA(initialValue, monthIdx)` from `script.js`:
`initialValue * Math.pow(1 + ipca, monthIdx)`. -/
def updateValueByIPCA (cfg : Config) (initialValue : ℚ) (monthIdx : ℤ) : ℚ :=
  initialValue * (1 + cfg.ipca) ^ monthIdx

/-- A JavaScript numeric value: `none` stands for a non-finite result
(`NaN`, `undefined`, `Infinity`) that can arise from reading a missing array
slot or from a division by zero. -/
abbrev JSNum := Option ℚ

/-- JavaScript addition: any non-finite operand poisons the result
(`undefined + x` is `NaN`, `NaN + x` is `NaN`). -/
def jsAdd : JSNum → JSNum → JSNum
  | some a, some b => some (a + b)
  | _, _ => none

/-- JavaScript division of finite numbers: division by zero is non-finite
(`Infinity` or `NaN`), any other quotient is finite. -/
def jsDiv (a b : ℚ) : JSNum :=
  if b = 0 then none else some (a / b)

/-- A JavaScript array of numbers, as produced by `new Array(n).fill(0)`
followed by index assignments: `entries i` is the value stored at index `i`
(`none` when no element is there or the stored value is `NaN`), and `length`
follows the JS rule that assigning index `i ≥ length` sets the length to
`i + 1`. -/
structure JSArr where
  entries : ℤ → JSNum
  length : ℕ

/-- `new Array(n).fill(v)`. -/
def JSArr.fill (n : ℕ) (v : ℚ) : JSArr where
  entries := fun i => if 0 ≤ i ∧ i < (n : ℤ) then some v else none
  length := n

/-- `a[i] += v`: accumulate at index `i` (reading a missing slot gives
`undefined`, so the stored value becomes `NaN`), updating the length the way
JS does. -/
def JSArr.addAt (a : JSArr) (i : ℤ) (v : JSNum) : JSArr where
  entries := fun j => if j = i then jsAdd (a.entries i) v else a.entries j
  length := if 0 ≤ i then max a.length (i.toNat + 1) else a.length

/-- `calcCashflowForUnit(unit, catIdx)` from `script.js`, with the unit's
`valor` and the configuration passed explicitly. -/
def calcCashflowForUnit (valor : ℚ) (catIdx : ℕ) (cfg : Config) : JSArr :=
  let basePrice := applyDiscount cfg valor catIdx
  let entradaTotal := cfg.entradaPct / 100 * basePrice
  let payAto := cfg.payAtoPct / 100 * basePrice
  let payInter := cfg.payInterPct / 100 * basePrice
  let payChaves := cfg.payChavesPct / 100 * basePrice
  let entradaMensal := jsDiv entradaTotal (cfg.entradaMonths : ℚ)
  let cf0 := JSArr.fill 24 0
  let cf1 := cf0.addAt 0 (some payAto)
  let cf2 := (List.range cfg.entradaMonths).foldl
    (fun a m => a.addAt ((m : ℤ) + 1) entradaMensal) cf1
  let cf3 :=
    if 0 < cfg.payInterPct then
      cf2.addAt cfg.payInterMonth
        (some (updateValueByINCC cfg payInter cfg.payInterMonth))
    else cf2
  cf3.addAt 23 (some (updateValueByIPCA cfg payChaves 23))

/-- The net present value computed inside `calcTIR`:
`cashflows.reduce((acc, v, idx) => acc + v / Math.pow(1 + rate, idx), 0)`. -/
def npv (cashflows : List ℚ) (rate : ℚ) : ℚ :=
  (List.range cashflows.length).foldl
    (fun acc idx => acc + cashflows.getD idx 0 / (1 + rate) ^ idx) 0

/-- The iteration of `calcTIR`, with the remaining iteration budget as fuel:
check the tolerance, otherwise step the rate by `±0.01` and clamp it to
`-0.99`. -/
def tirGo (cashflows : List ℚ) : ℕ → ℚ → ℚ
  | 0, rate => rate
  | n + 1, rate =>
    let v := npv cashflows rate
    if |v| < 1 / 1000000 then rate
    else tirGo cashflows n
      (max (rate + if 0 < v then 1 / 100 else -(1 / 100)) (-(99 / 100)))

/-- `calcTIR(cashflows)` from `script.js`: start at `0.01`, at most 200
iterations. -/
def calcTIR (cashflows : List ℚ) : ℚ :=
  tirGo cashflows 200 (1 / 100)

/-- The loop body of `calcPayback`, carrying the running cumulative sum:
returns the offset of the first element whose running sum is `≥ 0`, or the
number of remaining elements if none is. -/
def paybackGo : ℚ → List ℚ → ℕ
  | _, [] => 0
  | acc, f :: rest => if 0 ≤ acc + f then 0 else paybackGo (acc + f) rest + 1

/-- `calcPayback(flows)` from `script.js`. -/
def calcPayback (flows : List ℚ) : ℕ :=
  paybackGo 0 flows

/-- `Math.min(...flows)`: `none` for the empty spread (JS gives `Infinity`,
which only ever feeds the `invested <= 0` guard of `calcROI`). -/
def jsMin : List ℚ → Option ℚ
  | [] => none
  | x :: xs => some (xs.foldl min x)

/-- `.toFixed(2)` on an exact rational: round to the nearest multiple of
`1/100`, ties toward the larger value, as ECMAScript `toFixed` specifies. -/
def round2 (x : ℚ) : ℚ :=
  ((round (x * 100) : ℤ) : ℚ) / 100

/-- `calcROI(flows)` from `script.js`: `total / invested * 100` at two
decimals, or `0` when `invested = -min(flows)` is not positive (this includes
the empty list, where `Math.min()` is `Infinity` and `invested` is
`-Infinity`). -/
def calcROI (flows : List ℚ) : ℚ :=
  let total := flows.sum
  match jsMin flows with
  | none => 0
  | some m => if -m ≤ 0 then 0 else round2 (total / -m * 100)

/-- One step of the aggregation loop in `runSimulation`:
`flow.forEach((v, m) => allFlows[m] += v)`, for a flow no longer than the
accumulator (the only case a 24-slot accumulator meets with in-range
configurations; overlong flows are the degenerate case covered by the
`JSArr` model). Indices of `acc` beyond `flow` are unchanged. -/
def addInto (acc flow : List ℚ) : List ℚ :=
  (List.range acc.length).map (fun m => acc.getD m 0 + flow.getD m 0)

/-- The aggregation of `runSimulation`: start from `new Array(24).fill(0)`
and accumulate every per-unit flow element-wise. -/
def aggregate (flows : List (List ℚ)) : List ℚ :=
  flows.foldl addInto (List.replicate 24 0)

/-- C3: `applyDiscount` applies the pre-launch discount for phase indices
below `preLaunchMonths`, the launch discount up to
`preLaunchMonths + launchMonths`, and no discount afterwards; concretely
(with `preLaunchMonths = 2`, `launchMonths = 3`) phase 0 gets `discountPre`,
phase 2 gets `discountLaunch`, phase 5 gets the full value. -/
theorem applyDiscount_bands :
    (∀ (cfg : Config) (v : ℚ) (catIdx : ℕ),
      (catIdx < cfg.preLaunchMonths →
        applyDiscount cfg v catIdx = v * (1 - cfg.discountPre / 100)) ∧
      (cfg.preLaunchMonths ≤ catIdx →
        catIdx < cfg.preLaunchMonths + cfg.launchMonths →
        applyDiscount cfg v catIdx = v * (1 - cfg.discountLaunch / 100)) ∧
      (cfg.preLaunchMonths + cfg.launchMonths ≤ catIdx →
        applyDiscount cfg v catIdx = v)) ∧
    (∀ (dp dl v : ℚ),
      applyDiscount { defaultConfig with discountPre := dp, discountLaunch := dl } v 0
        = v * (1 - dp / 100) ∧
      applyDiscount { defaultConfig with discountPre := dp, discountLaunch := dl } v 2
        = v * (1 - dl / 100) ∧
      applyDiscount { defaultConfig with discountPre := dp, discountLaunch := dl } v 5
        = v) := by
  constructor
  · intro cfg v catIdx
    refine ⟨fun h => ?_, fun h1 h2 => ?_, fun h => ?_⟩
    · simp [applyDiscount, h]
    · rw [applyDiscount, if_neg (by omega), if_pos h2]
    · rw [applyDiscount, if_neg (by omega), if_neg (by omega)]
  · intro dp dl v
    refine ⟨?_, ?_, ?_⟩ <;> simp [applyDiscount, defaultConfig]

/-- Witness for `applyDiscount_bands`: the three bands at concrete inputs. -/
theorem applyDiscount_bands_witness :
    applyDiscount defaultConfig 300000 0
      = 300000 * (1 - defaultConfig.discountPre / 100) ∧
    applyDiscount defaultConfig 300000 2
      = 300000 * (1 - defaultConfig.discountLaunch / 100) ∧
    applyDiscount defaultConfig 300000 5 = 300000 :=
  ⟨(applyDiscount_bands.1 defaultConfig 300000 0).1 (by decide),
   (applyDiscount_bands.1 defaultConfig 300000 2).2.1 (by decide) (by decide),
   (applyDiscount_bands.1 defaultConfig 300000 5).2.2 (by decide)⟩

/-- Stepping an integer exponent that is a cast natural successor is one more
multiplication by the base. -/
lemma mul_zpow_natCast_succ (a v : ℚ) (m : ℕ) :
    v * a ^ ((m : ℤ) + 1) = v * a ^ (m : ℤ) * a := by
  have h : ((m : ℤ) + 1) = ((m + 1 : ℕ) : ℤ) := by push_cast; ring
  rw [h, zpow_natCast, zpow_natCast, pow_succ]; ring

/-- C9: both escalation functions are exact power compounding
`v * (1 + rate) ^ monthIdx` (INCC for one, IPCA for the other): escalating at
month 0 is the identity for every rate, and each further month multiplies by
`1 + rate` once more (compound, not simple, interest). -/
theorem escalate_compound :
    (∀ (cfg : Config) (v : ℚ),
      updateValueByINCC cfg v 0 = v ∧ updateValueByIPCA cfg v 0 = v) ∧
    (∀ (cfg : Config) (v : ℚ) (m : ℕ),
      updateValueByINCC cfg v m = v * (1 + cfg.incc) ^ m ∧
      updateValueByIPCA cfg v m = v * (1 + cfg.ipca) ^ m ∧
      updateValueByINCC cfg v ((m : ℤ) + 1) = updateValueByINCC cfg v m * (1 + cfg.incc) ∧
      updateValueByIPCA cfg v ((m : ℤ) + 1) = updateValueByIPCA cfg v m * (1 + cfg.ipca)) := by
  constructor
  · intro cfg v
    constructor <;> simp [updateValueByINCC, updateValueByIPCA]
  · intro cfg v m
    refine ⟨?_, ?_, ?_, ?_⟩
    · simp only [updateValueByINCC, zpow_natCast]
    · simp only [updateValueByIPCA, zpow_natCast]
    · simp only [updateValueByINCC]
      exact mul_zpow_natCast_succ _ _ _
    · simp only [updateValueByIPCA]
      exact mul_zpow_natCast_succ _ _ _

/-- Characterization of the `calcPayback` loop body, for every starting
accumulator: the result is at most the list length, every earlier prefix
leaves the running sum negative, and a result inside the list marks a
nonnegative running sum. -/
lemma paybackGo_spec (l : List ℚ) : ∀ acc : ℚ,
    paybackGo acc l ≤ l.length ∧
    (∀ j < paybackGo acc l, acc + (l.take (j + 1)).sum < 0) ∧
    (paybackGo acc l < l.length → 0 ≤ acc + (l.take (paybackGo acc l + 1)).sum) := by
  induction l with
  | nil => intro acc; simp [paybackGo]
  | cons f rest ih =>
    intro acc
    by_cases h : 0 ≤ acc + f
    · refine ⟨by simp [paybackGo, h], ?_, ?_⟩
      · intro j hj
        simp [paybackGo, h] at hj
      · intro _
        have e : paybackGo acc (f :: rest) = 0 := by simp [paybackGo, h]
        rw [e]
        simpa using h
    · obtain ⟨h1, h2, h3⟩ := ih (acc + f)
      refine ⟨?_, ?_, ?_⟩
      · simp only [paybackGo, if_neg h, List.length_cons]
        omega
      · intro j hj
        simp only [paybackGo, if_neg h] at hj
        cases j with
        | zero =>
          simpa using lt_of_not_le h
        | succ k =>
          have hk : k < paybackGo (acc + f) rest := by omega
          have hs := h2 k hk
          simpa [List.take_succ_cons, add_assoc] using hs
      · intro hlt
        simp only [paybackGo, if_neg h, List.length_cons] at hlt ⊢
        have hs := h3 (by omega)
        simpa [List.take_succ_cons, add_assoc] using hs

/-- C6: `calcPayback` returns the smallest index whose running cumulative sum
is nonnegative — every prefix strictly before the result has a negative sum,
a result inside the horizon has a nonnegative sum, and the result never
exceeds `flows.length` (returned when no prefix sum reaches 0); in
particular `calcPayback [-100, 20, 20, 20, 20, 20] = 5`. -/
theorem calcPayback_smallest_nonneg_index :
    (∀ flows : List ℚ,
      calcPayback flows ≤ flows.length ∧
      (∀ j < calcPayback flows, (flows.take (j + 1)).sum < 0) ∧
      (calcPayback flows < flows.length →
        0 ≤ (flows.take (calcPayback flows + 1)).sum)) ∧
    calcPayback [-100, 20, 20, 20, 20, 20] = 5 := by
  constructor
  · intro flows
    have h := paybackGo_spec flows 0
    simpa [calcPayback] using h
  · norm_num [calcPayback, paybackGo]

/-- Witness for `calcPayback_smallest_nonneg_index` on the spec's example
flow. -/
theorem calcPayback_smallest_nonneg_index_witness :
    calcPayback [-100, 20, 20, 20, 20, 20] ≤ [(-100 : ℚ), 20, 20, 20, 20, 20].length ∧
    (([(-100 : ℚ), 20, 20, 20, 20, 20]).take (3 + 1)).sum < 0 ∧
    0 ≤ (([(-100 : ℚ), 20, 20, 20, 20, 20]).take
      (calcPayback [-100, 20, 20, 20, 20, 20] + 1)).sum :=
  ⟨(calcPayback_smallest_nonneg_index.1 _).1,
   (calcPayback_smallest_nonneg_index.1 _).2.1 3 (by norm_num [calcPayback, paybackGo]),
   (calcPayback_smallest_nonneg_index.1 _).2.2 (by norm_num [calcPayback, paybackGo])⟩

/-- `List.foldl min` starting at `x` lands on `x` or on an element of the
list (the JS `Math.min` spread picks one of its arguments). -/
lemma foldl_min_mem (xs : List ℚ) : ∀ x : ℚ, xs.foldl min x ∈ x :: xs := by
  induction xs with
  | nil => intro x; simp
  | cons y ys ih =>
    intro x
    have h := ih (min x y)
    simp only [List.foldl_cons]
    rcases List.mem_cons.mp h with h1 | h1
    · rcases min_choice x y with hc | hc
      · have hx : List.foldl min (min x y) ys = x := h1.trans hc
        simp [hx]
      · have hy : List.foldl min (min x y) ys = y := h1.trans hc
        simp [hy]
    · simp [h1]

/-- `jsMin` returns an element of the list. -/
lemma jsMin_mem {l : List ℚ} {m : ℚ} (h : jsMin l = some m) : m ∈ l := by
  cases l with
  | nil => simp [jsMin] at h
  | cons x xs =>
    simp only [jsMin, Option.some.injEq] at h
    rw [← h]
    exact foldl_min_mem xs x

/-- C7: `calcROI` returns 0 whenever `invested = -min(flows)` is not positive
— in particular whenever the flow is never negative, so no division by zero
happens — and otherwise returns `total / invested * 100` rounded to two
decimals; for `[-200, 50, 50, 50, 50]` the ROI is 0. -/
theorem calcROI_guard_and_ratio :
    (∀ (flows : List ℚ) (m : ℚ), jsMin flows = some m → -m ≤ 0 →
      calcROI flows = 0) ∧
    (∀ flows : List ℚ, (∀ x ∈ flows, 0 ≤ x) → calcROI flows = 0) ∧
    (∀ (flows : List ℚ) (m : ℚ), jsMin flows = some m → 0 < -m →
      calcROI flows = round2 (flows.sum / -m * 100)) ∧
    calcROI [-200, 50, 50, 50, 50] = 0 := by
  have guard : ∀ (flows : List ℚ) (m : ℚ), jsMin flows = some m → -m ≤ 0 →
      calcROI flows = 0 := by
    intro flows m hm hle
    simp [calcROI, hm, hle]
  refine ⟨guard, ?_, ?_, ?_⟩
  · intro flows hpos
    rcases he : jsMin flows with _ | m
    · simp [calcROI, he]
    · exact guard flows m he (by simpa using hpos m (jsMin_mem he))
  · intro flows m hm hpos
    simp [calcROI, hm, not_le.mpr hpos]
  · norm_num [calcROI, jsMin, round2]

/-- Witness for `calcROI_guard_and_ratio`: a never-negative flow gives 0, a
flow with a negative excursion gives the rounded ratio. -/
theorem calcROI_guard_and_ratio_witness :
    calcROI [(5 : ℚ), 10] = 0 ∧
    calcROI [(-100 : ℚ), 60, 60] = round2 ([(-100 : ℚ), 60, 60].sum / -(-100) * 100) :=
  ⟨calcROI_guard_and_ratio.1 [5, 10] 5 (by norm_num [jsMin]) (by norm_num),
   calcROI_guard_and_ratio.2.2.1 [-100, 60, 60] (-100) (by norm_num [jsMin]) (by norm_num)⟩

/-- `addInto` keeps the accumulator's length (the JS loop writes only into
existing slots for flows within the horizon). -/
lemma addInto_length (a b : List ℚ) : (addInto a b).length = a.length := by
  simp [addInto]

/-- Entry view of one aggregation step. -/
lemma addInto_getD (a b : List ℚ) (m : ℕ) (h : m < a.length) :
    (addInto a b).getD m 0 = a.getD m 0 + b.getD m 0 := by
  have hm : m < (addInto a b).length := by rw [addInto_length]; exact h
  rw [List.getD_eq_getElem _ _ hm]
  simp [addInto]

/-- Entry view of the whole aggregation fold: every slot of the accumulator
ends up with its initial value plus the sum of that slot over all flows. -/
lemma aggregate_fold_spec (L : List (List ℚ)) : ∀ acc : List ℚ,
    (L.foldl addInto acc).length = acc.length ∧
    ∀ m : ℕ, m < acc.length →
      (L.foldl addInto acc).getD m 0
        = acc.getD m 0 + (L.map (fun f => f.getD m 0)).sum := by
  induction L with
  | nil => intro acc; simp
  | cons f rest ih =>
    intro acc
    obtain ⟨hlen, hget⟩ := ih (addInto acc f)
    refine ⟨by rw [List.foldl_cons, hlen, addInto_length], ?_⟩
    intro m hm
    have hm' : m < (addInto acc f).length := by rw [addInto_length]; exact hm
    rw [List.foldl_cons, hget m hm', addInto_getD _ _ _ hm, List.map_cons,
      List.sum_cons]
    ring

/-- C8: the aggregation of `runSimulation` is a pure element-wise sum over
24-slot vectors: the empty unit list yields 24 zeros, and the aggregate is
invariant under permutation of the per-unit vectors and splits over
concatenation (element-wise sum is commutative and associative). -/
theorem aggregate_elementwise_sum :
    aggregate [] = List.replicate 24 0 ∧
    (∀ L₁ L₂ : List (List ℚ), L₁.Perm L₂ → aggregate L₁ = aggregate L₂) ∧
    (∀ L₁ L₂ : List (List ℚ),
      aggregate (L₁ ++ L₂) = addInto (aggregate L₁) (aggregate L₂)) := by
  have hrep : ∀ m : ℕ, (List.replicate 24 (0 : ℚ)).getD m 0 = 0 := by
    intro m
    rcases lt_or_le m 24 with hm | hm
    · rw [List.getD_eq_getElem _ _ (by simpa using hm), List.getElem_replicate]
    · exact List.getD_eq_default _ _ (by simpa using hm)
  refine ⟨rfl, ?_, ?_⟩
  · intro L₁ L₂ hp
    obtain ⟨hl1, hg1⟩ := aggregate_fold_spec L₁ (List.replicate 24 0)
    obtain ⟨hl2, hg2⟩ := aggregate_fold_spec L₂ (List.replicate 24 0)
    have hlen1 : (aggregate L₁).length = 24 := by
      show (L₁.foldl addInto (List.replicate 24 0)).length = 24
      rw [hl1, List.length_replicate]
    have hlen2 : (aggregate L₂).length = 24 := by
      show (L₂.foldl addInto (List.replicate 24 0)).length = 24
      rw [hl2, List.length_replicate]
    apply List.ext_getElem (hlen1.trans hlen2.symm)
    intro i hi1 hi2
    have hi : i < 24 := by rw [hlen1] at hi1; exact hi1
    rw [← List.getD_eq_getElem _ 0 hi1, ← List.getD_eq_getElem _ 0 hi2]
    show (L₁.foldl addInto (List.replicate 24 0)).getD i 0
      = (L₂.foldl addInto (List.replicate 24 0)).getD i 0
    rw [hg1 i (by rw [List.length_replicate]; exact hi),
      hg2 i (by rw [List.length_replicate]; exact hi)]
    exact congrArg _ ((hp.map _).sum_eq)
  · intro L₁ L₂
    obtain ⟨hlA, hgA⟩ := aggregate_fold_spec (L₁ ++ L₂) (List.replicate 24 0)
    obtain ⟨hl1, hg1⟩ := aggregate_fold_spec L₁ (List.replicate 24 0)
    obtain ⟨hl2, hg2⟩ := aggregate_fold_spec L₂ (List.replicate 24 0)
    have hlenA : (aggregate (L₁ ++ L₂)).length = 24 := by
      show ((L₁ ++ L₂).foldl addInto (List.replicate 24 0)).length = 24
      rw [hlA, List.length_replicate]
    have hlen1 : (aggregate L₁).length = 24 := by
      show (L₁.foldl addInto (List.replicate 24 0)).length = 24
      rw [hl1, List.length_replicate]
    have hlen2 : (aggregate L₂).length = 24 := by
      show (L₂.foldl addInto (List.replicate 24 0)).length = 24
      rw [hl2, List.length_replicate]
    apply List.ext_getElem (by rw [hlenA, addInto_length, hlen1])
    intro i hi1 hi2
    have hi : i < 24 := by rw [hlenA] at hi1; exact hi1
    rw [← List.getD_eq_getElem _ 0 hi1, ← List.getD_eq_getElem _ 0 hi2]
    rw [addInto_getD (aggregate L₁) (aggregate L₂) i (by rw [hlen1]; exact hi)]
    show ((L₁ ++ L₂).foldl addInto (List.replicate 24 0)).getD i 0
      = (L₁.foldl addInto (List.replicate 24 0)).getD i 0
        + (L₂.foldl addInto (List.replicate 24 0)).getD i 0
    rw [hgA i (by rw [List.length_replicate]; exact hi),
      hg1 i (by rw [List.length_replicate]; exact hi),
      hg2 i (by rw [List.length_replicate]; exact hi), List.map_append,
      List.sum_append, hrep]
    ring

/-- Witness for `aggregate_elementwise_sum`: swapping two concrete per-unit
vectors leaves the aggregate unchanged. -/
theorem aggregate_elementwise_sum_witness :
    aggregate [List.replicate 24 (1 : ℚ), List.replicate 24 2]
      = aggregate [List.replicate 24 (2 : ℚ), List.replicate 24 1] :=
  aggregate_elementwise_sum.2.1 _ _ (List.Perm.swap _ _ _)

/-- Modelled from the spec (§4.5), for the refinement comparison with
`calcTIR`: the net present value `Σ cashflow[i] / (1+rate)^i` over
`i = 0..N-1`, written as a mapped sum. -/
def npvSpecSum (cashflow : List ℚ) (rate : ℚ) : ℚ :=
  ((List.range cashflow.length).map
    (fun i => cashflow.getD i 0 / (1 + rate) ^ i)).sum

/-- Modelled from the spec (§4.5), for the refinement comparison with
`calcTIR`: one iteration of the solver as a state machine on
(rate, converged): a converged state is final; otherwise stop at tolerance
`1e-6`, or step the rate by `+0.01` when the NPV is positive and `-0.01`
otherwise, clamping to the floor `-0.99` after the step. -/
def solveStep (cashflow : List ℚ) (s : ℚ × Bool) : ℚ × Bool :=
  if s.2 then s
  else if |npvSpecSum cashflow s.1| < 1 / 1000000 then (s.1, true)
  else
    (max (s.1 + if 0 < npvSpecSum cashflow s.1 then 1 / 100 else -(1 / 100))
      (-(99 / 100)), false)

/-- Modelled from the spec (§4.5), for the refinement comparison with
`calcTIR`: start at rate `0.01`, run at most 200 iterations, return the final
rate whether or not the tolerance was reached. -/
def solveRateSpec (cashflow : List ℚ) : ℚ :=
  ((List.range 200).foldl (fun s _ => solveStep cashflow s) (1 / 100, false)).1

/-- A left fold that adds a function of each element is the sum of the mapped
list. -/
lemma foldl_add_map (g : ℕ → ℚ) : ∀ (l : List ℕ) (init : ℚ),
    l.foldl (fun acc i => acc + g i) init = init + (l.map g).sum := by
  intro l
  induction l with
  | nil => intro init; simp
  | cons x xs ih =>
    intro init
    rw [List.foldl_cons, ih, List.map_cons, List.sum_cons]
    ring

/-- The reduce inside `calcTIR` computes the spec's NPV sum. -/
lemma npv_eq_npvSpecSum (cfs : List ℚ) (rate : ℚ) :
    npv cfs rate = npvSpecSum cfs rate :=
  (foldl_add_map (fun idx => cfs.getD idx 0 / (1 + rate) ^ idx)
    (List.range cfs.length) 0).trans (zero_add _)

/-- A fold over `List.range` that ignores the index is an iterate. -/
lemma foldl_const_range {α : Type} (g : α → α) : ∀ (n : ℕ) (s : α),
    (List.range n).foldl (fun s _ => g s) s = g^[n] s := by
  intro n
  induction n with
  | zero => intro s; simp
  | succ n ih =>
    intro s
    rw [List.range_succ, List.foldl_append, ih, List.foldl_cons,
      List.foldl_nil, Function.iterate_succ_apply']

/-- A converged solver state is a fixed point of `solveStep`. -/
lemma solveStep_done (cfs : List ℚ) : ∀ (n : ℕ) (a : ℚ),
    (solveStep cfs)^[n] (a, true) = (a, true) := by
  intro n
  induction n with
  | zero => intro a; simp
  | succ n ih =>
    intro a
    rw [Function.iterate_succ_apply]
    have h : solveStep cfs (a, true) = (a, true) := by simp [solveStep]
    rw [h, ih]

/-- Unfolding equation for one `calcTIR` iteration. -/
lemma tirGo_succ (cfs : List ℚ) (n : ℕ) (r : ℚ) :
    tirGo cfs (n + 1) r
      = if |npv cfs r| < 1 / 1000000 then r
        else tirGo cfs n
          (max (r + if 0 < npv cfs r then 1 / 100 else -(1 / 100))
            (-(99 / 100))) := rfl

/-- The early-exit loop of `calcTIR` computes the same rate as iterating the
spec's flag-carrying step. -/
lemma tirGo_eq_iterate (cfs : List ℚ) : ∀ (n : ℕ) (r : ℚ),
    tirGo cfs n r = ((solveStep cfs)^[n] (r, false)).1 := by
  intro n
  induction n with
  | zero => intro r; simp [tirGo]
  | succ n ih =>
    intro r
    rw [Function.iterate_succ_apply]
    by_cases h : |npv cfs r| < 1 / 1000000
    · have h' : |npvSpecSum cfs r| < 1 / 1000000 := by
        rw [← npv_eq_npvSpecSum]; exact h
      have hstep : solveStep cfs (r, false) = (r, true) := by
        simp only [solveStep]
        rw [if_neg (by simp), if_pos h']
      rw [tirGo_succ, if_pos h, hstep, solveStep_done]
    · have h' : ¬ |npvSpecSum cfs r| < 1 / 1000000 := by
        rw [← npv_eq_npvSpecSum]; exact h
      have hstep : solveStep cfs (r, false)
          = (max (r + if 0 < npvSpecSum cfs r then 1 / 100 else -(1 / 100))
              (-(99 / 100)), false) := by
        simp only [solveStep]
        rw [if_neg (by simp), if_neg h']
      rw [tirGo_succ, if_neg h, hstep, ← ih, npv_eq_npvSpecSum]

/-- C2: `calcTIR` implements the spec's solver exactly: starting at rate
`0.01`, it runs at most 200 iterations, returning the current rate as soon as
`|npv| < 1e-6`, otherwise stepping by `+0.01` when the NPV is positive and
`-0.01` otherwise, clamping the rate to the floor `-0.99` after every step,
and after 200 iterations without convergence it returns the last computed
rate without any error. -/
theorem calcTIR_refines_solver_spec (cashflows : List ℚ) :
    calcTIR cashflows = solveRateSpec cashflows := by
  rw [calcTIR, solveRateSpec, foldl_const_range, tirGo_eq_iterate]

/-- Entry view of `new Array(n).fill(v)`. -/
lemma fill_entries (n : ℕ) (v : ℚ) (j : ℤ) :
    (JSArr.fill n v).entries j = if 0 ≤ j ∧ j < (n : ℤ) then some v else none :=
  rfl

/-- Entry view of `a[i] += v`. -/
lemma addAt_entries (a : JSArr) (i j : ℤ) (v : JSNum) :
    (a.addAt i v).entries j
      = if j = i then jsAdd (a.entries i) v else a.entries j :=
  rfl

/-- Length view of `a[i] += v`. -/
lemma addAt_length (a : JSArr) (i : ℤ) (v : JSNum) :
    (a.addAt i v).length
      = if 0 ≤ i then max a.length (i.toNat + 1) else a.length :=
  rfl

/-- Entry view of the entrada loop
`for (m = 1; m <= entradaMonths; m++) cashFlow[m] += entradaMensal`:
each index of the window `1..n` accumulates the installment exactly once. -/
lemma entradaFold_entries (v : JSNum) : ∀ (n : ℕ) (a : JSArr) (j : ℤ),
    ((List.range n).foldl (fun a m => a.addAt ((m : ℤ) + 1) v) a).entries j
      = if 1 ≤ j ∧ j ≤ (n : ℤ) then jsAdd (a.entries j) v else a.entries j := by
  intro n
  induction n with
  | zero =>
    intro a j
    rw [List.range_zero, List.foldl_nil, if_neg (by omega)]
  | succ n ih =>
    intro a j
    rw [List.range_succ, List.foldl_append, List.foldl_cons, List.foldl_nil,
      addAt_entries]
    by_cases hj : j = (n : ℤ) + 1
    · subst hj
      rw [if_pos rfl, ih, if_neg (by omega), if_pos (by push_cast; omega)]
    · rw [if_neg hj, ih]
      by_cases hw : 1 ≤ j ∧ j ≤ (n : ℤ)
      · rw [if_pos hw, if_pos (by push_cast; omega)]
      · rw [if_neg hw, if_neg (by push_cast; omega)]

/-- Length view of the entrada loop: an empty window leaves the length alone,
a window up to month `n` grows the length to at least `n + 1`. -/
lemma entradaFold_length (v : JSNum) : ∀ (n : ℕ) (a : JSArr),
    ((List.range n).foldl (fun a m => a.addAt ((m : ℤ) + 1) v) a).length
      = if n = 0 then a.length else max a.length (n + 1) := by
  intro n
  induction n with
  | zero => intro a; rw [List.range_zero, List.foldl_nil, if_pos rfl]
  | succ n ih =>
    intro a
    rw [List.range_succ, List.foldl_append, List.foldl_cons, List.foldl_nil,
      addAt_length, ih, if_pos (by omega)]
    have ht : ((n : ℤ) + 1).toNat = n + 1 := by omega
    rw [ht, if_neg (Nat.succ_ne_zero n)]
    by_cases hn : n = 0
    · subst hn; rw [if_pos rfl]
    · rw [if_neg hn]
      omega

/-- Entry view of the vector after the at-signing and entrada legs: slot 0
holds the at-signing amount, slots `1..n` hold one equal installment each
(`T / n`, well defined because a nonempty window forces `n ≥ 1`). -/
lemma baseFold_entries (n : ℕ) (T A : ℚ) (k : ℤ) (h0 : 0 ≤ k) (h1 : k < 24) :
    ((List.range n).foldl (fun a m => a.addAt ((m : ℤ) + 1) (jsDiv T (n : ℚ)))
        ((JSArr.fill 24 0).addAt 0 (some A))).entries k
      = some ((if k = 0 then A else 0)
          + (if 1 ≤ k ∧ k ≤ (n : ℤ) then T / (n : ℚ) else 0)) := by
  rw [entradaFold_entries]
  by_cases hw : 1 ≤ k ∧ k ≤ (n : ℤ)
  · have hn : (n : ℚ) ≠ 0 := Nat.cast_ne_zero.mpr (by omega)
    have hk0 : ¬ k = 0 := by omega
    rw [if_pos hw, addAt_entries, if_neg hk0, fill_entries,
      if_pos ⟨h0, by omega⟩, jsDiv, if_neg hn]
    simp [jsAdd, hw, hk0]
  · rw [if_neg hw, addAt_entries]
    by_cases hk0 : k = 0
    · subst hk0
      rw [if_pos rfl, fill_entries, if_pos ⟨le_refl 0, by omega⟩]
      simp [jsAdd, hw]
    · rw [if_neg hk0, fill_entries, if_pos ⟨h0, by omega⟩]
      simp [hw, hk0]

/-- The month-by-month content of the builder's vector inside the 24-month
horizon: month 0 carries the at-signing leg, months `1..entradaMonths` each
carry one equal installment of the down payment, month `payInterMonth`
carries the INCC-escalated intermediate leg exactly when `payInterPct > 0`,
and month 23 always carries the IPCA-escalated delivery leg; legs landing on
the same month add up, and every entry in range is a finite number. -/
lemma calcCashflow_entries (valor : ℚ) (catIdx : ℕ) (cfg : Config) (j : ℤ)
    (h0 : 0 ≤ j) (h1 : j < 24) :
    (calcCashflowForUnit valor catIdx cfg).entries j
      = some (
        (if j = 0 then cfg.payAtoPct / 100 * applyDiscount cfg valor catIdx else 0)
        + (if 1 ≤ j ∧ j ≤ (cfg.entradaMonths : ℤ) then
            cfg.entradaPct / 100 * applyDiscount cfg valor catIdx
              / (cfg.entradaMonths : ℚ)
          else 0)
        + (if 0 < cfg.payInterPct ∧ j = cfg.payInterMonth then
            cfg.payInterPct / 100 * applyDiscount cfg valor catIdx
              * (1 + cfg.incc) ^ cfg.payInterMonth
          else 0)
        + (if j = 23 then
            cfg.payChavesPct / 100 * applyDiscount cfg valor catIdx
              * (1 + cfg.ipca) ^ (23 : ℤ)
          else 0)) := by
  simp only [calcCashflowForUnit, updateValueByINCC, updateValueByIPCA]
  by_cases hip : 0 < cfg.payInterPct
  · rw [if_pos hip, addAt_entries]
    by_cases h23 : j = 23
    · subst h23
      rw [if_pos rfl, addAt_entries]
      by_cases hpim : (23 : ℤ) = cfg.payInterMonth
      · rw [if_pos hpim, ← hpim,
          baseFold_entries _ _ _ _ (by norm_num) (by norm_num)]
        simp only [jsAdd, Option.some.injEq]
        norm_num [hip]
      · rw [if_neg hpim, baseFold_entries _ _ _ _ (by norm_num) (by norm_num)]
        simp only [jsAdd, Option.some.injEq]
        norm_num [hpim]
    · rw [if_neg h23, addAt_entries]
      by_cases hjip : j = cfg.payInterMonth
      · rw [if_pos hjip, ← hjip, baseFold_entries _ _ _ _ h0 h1]
        simp only [jsAdd, Option.some.injEq]
        norm_num [hip, h23]
      · rw [if_neg hjip, baseFold_entries _ _ _ _ h0 h1]
        simp only [jsAdd, Option.some.injEq]
        norm_num [hjip, h23]
  · rw [if_neg hip, addAt_entries]
    have hipf : ¬ (0 < cfg.payInterPct ∧ j = cfg.payInterMonth) :=
      fun hc => hip hc.1
    by_cases h23 : j = 23
    · subst h23
      rw [if_pos rfl, baseFold_entries _ _ _ _ (by norm_num) (by norm_num)]
      simp only [jsAdd, Option.some.injEq]
      norm_num [hipf]
    · rw [if_neg h23, baseFold_entries _ _ _ _ h0 h1]
      simp only [jsAdd, Option.some.injEq]
      norm_num [hipf, h23]

/-- C1: for every unit and configuration the builder places `payAtoPct/100`
of the discounted base price at month 0, spreads `entradaPct/100` of the base
price in equal installments `entradaTotal/entradaMonths` over months
`1..entradaMonths`, adds the INCC-escalated intermediate payment at month
`payInterMonth` exactly when `payInterPct > 0`, always adds the
IPCA-escalated delivery payment at month 23 (zero contribution when
`payChavesPct = 0`), with coinciding legs accumulating by addition; and for
one unit of 300000 at phase 0 under the spec scenario configuration the
vector is 13500 at months 1–6, `270000 * 0.70 * (1+ipca)^23` at month 23 and
zero elsewhere. -/
theorem calcCashflowForUnit_legs :
    (∀ (valor : ℚ) (catIdx : ℕ) (cfg : Config) (j : ℤ), 0 ≤ j → j < 24 →
      (calcCashflowForUnit valor catIdx cfg).entries j
        = some (
          (if j = 0 then cfg.payAtoPct / 100 * applyDiscount cfg valor catIdx else 0)
          + (if 1 ≤ j ∧ j ≤ (cfg.entradaMonths : ℤ) then
              cfg.entradaPct / 100 * applyDiscount cfg valor catIdx
                / (cfg.entradaMonths : ℚ)
            else 0)
          + (if 0 < cfg.payInterPct ∧ j = cfg.payInterMonth then
              cfg.payInterPct / 100 * applyDiscount cfg valor catIdx
                * (1 + cfg.incc) ^ cfg.payInterMonth
            else 0)
          + (if j = 23 then
              cfg.payChavesPct / 100 * applyDiscount cfg valor catIdx
                * (1 + cfg.ipca) ^ (23 : ℤ)
            else 0))) ∧
    (∀ (incc ipca : ℚ) (j : ℤ), 0 ≤ j → j < 24 →
      (calcCashflowForUnit 300000 0
        { incc := incc, ipca := ipca, entradaPct := 30, entradaMonths := 6,
          payAtoPct := 0, payInterPct := 0, payInterMonth := 6,
          payChavesPct := 70, preLaunchMonths := 2, launchMonths := 3,
          discountPre := 10, discountLaunch := 5 }).entries j
        = some (if 1 ≤ j ∧ j ≤ 6 then 13500
            else if j = 23 then 270000 * (70 / 100) * (1 + ipca) ^ (23 : ℤ)
            else 0)) := by
  constructor
  · intro valor catIdx cfg j h0 h1
    exact calcCashflow_entries valor catIdx cfg j h0 h1
  · intro incc ipca j h0 h1
    rw [calcCashflow_entries _ _ _ _ h0 h1]
    by_cases hw : 1 ≤ j ∧ j ≤ (6 : ℤ)
    · have h23 : ¬ j = 23 := by omega
      norm_num [applyDiscount, hw, h23]
    · by_cases h23 : j = 23
      · subst h23
        norm_num [applyDiscount, hw]
      · norm_num [applyDiscount, hw, h23]

/-- Witness for `calcCashflowForUnit_legs`: an installment month and the
delivery month of concrete configurations. -/
theorem calcCashflowForUnit_legs_witness :
    (calcCashflowForUnit 300000 0 defaultConfig).entries 3 = some 13500 ∧
    (calcCashflowForUnit 300000 0
      { incc := 0, ipca := 0, entradaPct := 30, entradaMonths := 6,
        payAtoPct := 0, payInterPct := 0, payInterMonth := 6,
        payChavesPct := 70, preLaunchMonths := 2, launchMonths := 3,
        discountPre := 10, discountLaunch := 5 }).entries 23
      = some (270000 * (70 / 100) * (1 + (0 : ℚ)) ^ (23 : ℤ)) := by
  constructor
  · have h := calcCashflowForUnit_legs.1 300000 0 defaultConfig 3
      (by norm_num) (by norm_num)
    rw [h]
    norm_num [defaultConfig, applyDiscount]
  · have h := calcCashflowForUnit_legs.2 0 0 23 (by norm_num) (by norm_num)
    rw [h]
    norm_num

/-- Length view of `new Array(n).fill(v)`. -/
lemma fill_length (n : ℕ) (v : ℚ) : (JSArr.fill n v).length = n := rfl

/-- C4 (amended): whenever `entradaMonths ≤ 23` and, if `payInterPct > 0`,
`payInterMonth ≤ 23`, the builder's vector has exactly 24 entries; an
`entradaMonths` or an active `payInterMonth` beyond 23 grows the JS array
past 24 slots instead. -/
theorem calcCashflowForUnit_length24 (valor : ℚ) (catIdx : ℕ) (cfg : Config)
    (hem : cfg.entradaMonths ≤ 23)
    (hpim : 0 < cfg.payInterPct → cfg.payInterMonth ≤ 23) :
    (calcCashflowForUnit valor catIdx cfg).length = 24 := by
  simp only [calcCashflowForUnit]
  by_cases hip : 0 < cfg.payInterPct
  · have hpim' := hpim hip
    rw [if_pos hip]
    simp only [addAt_length, entradaFold_length, fill_length]
    norm_num
    split_ifs <;> omega
  · rw [if_neg hip]
    simp only [addAt_length, entradaFold_length, fill_length]
    norm_num
    split_ifs <;> omega

/-- Witness for `calcCashflowForUnit_length24` at the default
configuration. -/
theorem calcCashflowForUnit_length24_witness :
    (calcCashflowForUnit 300000 0 defaultConfig).length = 24 :=
  calcCashflowForUnit_length24 300000 0 defaultConfig (by decide)
    (fun _ => by decide)

/-- C4 counterexample: with `entradaMonths = 24` (all other fields at their
defaults) the builder's vector does not have 24 entries — the installment
loop writes at month 24 and the JS array grows to 25 slots. -/
theorem calcCashflowForUnit_length_not24 :
    ¬ (calcCashflowForUnit 300000 0
        { defaultConfig with entradaMonths := 24 }).length = 24 := by
  have h : (calcCashflowForUnit 300000 0
      { defaultConfig with entradaMonths := 24 }).length = 25 := by
    norm_num [calcCashflowForUnit, JSArr.addAt, JSArr.fill, defaultConfig,
      List.range_succ]
    decide
  omega

/-- C5: the builder does not guard degenerate inputs — with an active
intermediate payment at month 30 it silently stores a non-finite value
(`undefined + x = NaN`) at index 30 and grows the array to 31 slots; with
`entradaMonths = 0` it silently computes a division by zero whose result is
never stored (month 1 stays a finite 0, no error is raised); with
`entradaMonths = 24` the installment at month 24 is a silent out-of-range
`NaN` write. -/
theorem calcCashflowForUnit_degenerate_silent :
    ((calcCashflowForUnit 300000 0
        { defaultConfig with payInterPct := 10, payInterMonth := 30 }).entries 30
      = none) ∧
    ((calcCashflowForUnit 300000 0
        { defaultConfig with payInterPct := 10, payInterMonth := 30 }).length
      = 31) ∧
    ((calcCashflowForUnit 300000 0
        { defaultConfig with entradaMonths := 0 }).entries 1 = some 0) ∧
    ((calcCashflowForUnit 300000 0
        { defaultConfig with entradaMonths := 24 }).entries 24 = none) := by
  refine ⟨?_, ?_, ?_, ?_⟩
  · norm_num [calcCashflowForUnit, JSArr.addAt, JSArr.fill, defaultConfig,
      List.range_succ, jsAdd, jsDiv, updateValueByINCC, applyDiscount]
  · norm_num [calcCashflowForUnit, JSArr.addAt, JSArr.fill, defaultConfig,
      List.range_succ]
    decide
  · norm_num [calcCashflowForUnit, JSArr.addAt, JSArr.fill, defaultConfig,
      List.range_succ, jsAdd, jsDiv, updateValueByIPCA, applyDiscount]
  · norm_num [calcCashflowForUnit, JSArr.addAt, JSArr.fill, defaultConfig,
      List.range_succ, jsAdd, jsDiv, updateValueByIPCA, applyDiscount]

/-- The discounted base price is nonnegative when the unit value is
nonnegative and neither discount exceeds 100%. -/
lemma applyDiscount_nonneg (cfg : Config) (v : ℚ) (catIdx : ℕ)
    (hv : 0 ≤ v) (hdp : cfg.discountPre ≤ 100) (hdl : cfg.discountLaunch ≤ 100) :
    0 ≤ applyDiscount cfg v catIdx := by
  unfold applyDiscount
  split_ifs
  · exact mul_nonneg hv (by linarith)
  · exact mul_nonneg hv (by linarith)
  · exact hv

/-- C10 (implicit): with nonnegative percentage legs, discounts at most
100% and escalation rates at least −1, every in-horizon entry of every
per-unit vector is a nonnegative finite number; the aggregate of such
vectors is a nonempty all-nonnegative vector; and on any nonempty
all-nonnegative flow `calcROI` returns 0 (its `invested ≤ 0` guard fires)
and `calcPayback` returns 0 — the engine models only inflows, with no
negative investment excursion. -/
theorem cashflow_inflows_only :
    (∀ (valor : ℚ) (catIdx : ℕ) (cfg : Config) (j : ℤ),
      0 ≤ valor → 0 ≤ cfg.entradaPct → 0 ≤ cfg.payAtoPct →
      0 ≤ cfg.payInterPct → 0 ≤ cfg.payChavesPct →
      cfg.discountPre ≤ 100 → cfg.discountLaunch ≤ 100 →
      -1 ≤ cfg.incc → -1 ≤ cfg.ipca → 0 ≤ j → j < 24 →
      ∃ q : ℚ, (calcCashflowForUnit valor catIdx cfg).entries j = some q
        ∧ 0 ≤ q) ∧
    (∀ L : List (List ℚ), (∀ f ∈ L, ∀ x ∈ f, 0 ≤ x) →
      aggregate L ≠ [] ∧ ∀ x ∈ aggregate L, 0 ≤ x) ∧
    (∀ flows : List ℚ, flows ≠ [] → (∀ x ∈ flows, 0 ≤ x) →
      calcROI flows = 0 ∧ calcPayback flows = 0) := by
  refine ⟨?_, ?_, ?_⟩
  · intro valor catIdx cfg j hv hent hato hinter hchaves hdp hdl hincc hipca h0 h1
    have hB := applyDiscount_nonneg cfg valor catIdx hv hdp hdl
    refine ⟨_, calcCashflow_entries valor catIdx cfg j h0 h1, ?_⟩
    have h100 : (0 : ℚ) ≤ 100 := by norm_num
    refine add_nonneg (add_nonneg (add_nonneg ?_ ?_) ?_) ?_
    · split_ifs
      · exact mul_nonneg (div_nonneg hato h100) hB
      · exact le_refl 0
    · split_ifs
      · exact div_nonneg (mul_nonneg (div_nonneg hent h100) hB)
          (Nat.cast_nonneg _)
      · exact le_refl 0
    · split_ifs
      · exact mul_nonneg (mul_nonneg (div_nonneg hinter h100) hB)
          (zpow_nonneg (by linarith) _)
      · exact le_refl 0
    · split_ifs
      · exact mul_nonneg (mul_nonneg (div_nonneg hchaves h100) hB)
          (zpow_nonneg (by linarith) _)
      · exact le_refl 0
  · intro L hL
    obtain ⟨hlen, hget⟩ := aggregate_fold_spec L (List.replicate 24 0)
    have hlen24 : (aggregate L).length = 24 := by
      show (L.foldl addInto (List.replicate 24 0)).length = 24
      rw [hlen, List.length_replicate]
    constructor
    · exact List.ne_nil_of_length_pos (by omega)
    · intro x hx
      obtain ⟨i, hi, hxe⟩ := List.mem_iff_getElem.mp hx
      have hi24 : i < 24 := by omega
      have hxd : (aggregate L).getD i 0 = x := by
        rw [List.getD_eq_getElem _ _ hi, hxe]
      rw [← hxd]
      show 0 ≤ (L.foldl addInto (List.replicate 24 0)).getD i 0
      rw [hget i (by rw [List.length_replicate]; exact hi24)]
      have hrep : (List.replicate 24 (0 : ℚ)).getD i 0 = 0 := by
        rw [List.getD_eq_getElem _ _ (by simpa using hi24),
          List.getElem_replicate]
      rw [hrep, zero_add]
      refine List.sum_nonneg ?_
      intro y hy
      obtain ⟨f, hf, hfy⟩ := List.mem_map.mp hy
      rw [← hfy]
      rcases lt_or_le i f.length with hif | hif
      · rw [List.getD_eq_getElem _ _ hif]
        exact hL f hf _ (List.getElem_mem hif)
      · rw [List.getD_eq_default _ _ hif]
  · intro flows hne hpos
    constructor
    · rcases he : jsMin flows with _ | m
      · simp [calcROI, he]
      · have hm : 0 ≤ m := hpos m (jsMin_mem he)
        simp [calcROI, he, neg_nonpos.mpr hm]
    · cases flows with
      | nil => exact absurd rfl hne
      | cons f rest =>
        have hf : 0 ≤ f := hpos f (by simp)
        simp [calcPayback, paybackGo, hf]

/-- Witness for `cashflow_inflows_only` at the default configuration and
concrete flows. -/
theorem cashflow_inflows_only_witness :
    (∃ q : ℚ, (calcCashflowForUnit 300000 0 defaultConfig).entries 5 = some q
      ∧ 0 ≤ q) ∧
    (aggregate [List.replicate 24 (1 : ℚ)] ≠ []) ∧
    calcROI [(2 : ℚ)] = 0 ∧ calcPayback [(2 : ℚ)] = 0 :=
  ⟨cashflow_inflows_only.1 300000 0 defaultConfig 5
      (by norm_num) (by norm_num [defaultConfig]) (by norm_num [defaultConfig])
      (by norm_num [defaultConfig]) (by norm_num [defaultConfig])
      (by norm_num [defaultConfig]) (by norm_num [defaultConfig])
      (by norm_num [defaultConfig]) (by norm_num [defaultConfig])
      (by norm_num) (by norm_num),
   (cashflow_inflows_only.2.1 [List.replicate 24 (1 : ℚ)]
      (by
        intro f hf x hx
        simp only [List.mem_singleton] at hf
        subst hf
        rw [List.eq_of_mem_replicate hx]
        norm_num)).1,
   cashflow_inflows_only.2.2 [(2 : ℚ)] (by simp) (by norm_num)⟩

end ApsInvest
